import Mathlib

/-!
Interval arithmetic over checked bounds (`include/interval.hpp`).

A shallow embedding of `boost::numeric::interval` and its operators.
Integer values are mathematical integers (`Int`); a representation `R` is the
closed range of values it can hold.  The header's collaborators
(`checked_result.hpp`, `checked.hpp`, `boost/logic/tribool.hpp`) are not part of
the translated source; their contracts are modelled from the specification and
marked as such.
-/

namespace boost.numeric

/-! ## Collaborators -/

/-- Modelled from the spec: the three-valued boolean of `boost/logic/tribool.hpp`
(§6: "a type with three states {true, false, indeterminate}"). -/
inductive tribool where
  | false_value
  | true_value
  | indeterminate_value
  deriving DecidableEq, Repr

namespace tribool

/-- Modelled from the spec: lifting of a plain boolean into `tribool`. -/
def ofBool : Bool → tribool
  | true => true_value
  | false => false_value

/-- Modelled from the spec: three-valued negation of `tribool.hpp`
(§4.7: "indeterminate negates to indeterminate"). -/
def not : tribool → tribool
  | false_value => true_value
  | true_value => false_value
  | indeterminate_value => indeterminate_value

/-- Modelled from the spec: three-valued conjunction of `tribool.hpp`
(§6: "AND of anything with indeterminate is indeterminate unless the other
operand alone determines the result is false"). -/
def and : tribool → tribool → tribool
  | false_value, _ => false_value
  | _, false_value => false_value
  | true_value, true_value => true_value
  | _, _ => indeterminate_value

/-- Modelled from the spec: the contextual conversion of a `tribool` to `bool`
in `tribool.hpp`, used wherever the header puts a three-valued expression in a
`?:` condition or returns it from a `bool` function.  Only a definite true
converts to `true`; an indeterminate condition selects the second operand. -/
def toBool : tribool → Bool
  | true_value => true
  | _ => false

end tribool

/-- Modelled from the spec: the exception kinds of `checked_result.hpp`
(§7: overflow, underflow, domain error). -/
inductive exception_type where
  | overflow_error
  | underflow_error
  | domain_error
  deriving DecidableEq, Repr

/-- Modelled from the spec: the checked bound of `checked_result.hpp` (§3, §9):
either a concrete value or an exception kind with its diagnostic text. -/
inductive checked_result where
  | value (r : Int)
  | exception (e : exception_type) (msg : String)
  deriving DecidableEq, Repr

namespace checked_result

/-- Modelled from the spec: `checked_result == exception_type::no_exception` of
`checked_result.hpp`: the bound carries a concrete value. -/
def no_exception : checked_result → Bool
  | value _ => true
  | exception _ _ => false

/-- Modelled from the spec: the conversion `static_cast<T>(checked_result<T>)`
of `checked_result.hpp`.  It is defined for a concrete bound only. -/
def get : checked_result → Option Int
  | value r => some r
  | exception _ _ => none

/-- Modelled from the spec: `operator<` of `checked_result.hpp` (§3: ordering
yields an indeterminate result when either side is an exception; the comment in
`interval::includes` says the same of `<=` and `>=`). -/
def lt : checked_result → checked_result → tribool
  | value a, value b => tribool.ofBool (decide (a < b))
  | _, _ => tribool.indeterminate_value

/-- Modelled from the spec: `operator>` of `checked_result.hpp` (§3). -/
def gt : checked_result → checked_result → tribool
  | value a, value b => tribool.ofBool (decide (a > b))
  | _, _ => tribool.indeterminate_value

/-- Modelled from the spec: `operator<=` of `checked_result.hpp` (§3). -/
def le : checked_result → checked_result → tribool
  | value a, value b => tribool.ofBool (decide (a ≤ b))
  | _, _ => tribool.indeterminate_value

/-- Modelled from the spec: `operator>=` of `checked_result.hpp` (§3). -/
def ge : checked_result → checked_result → tribool
  | value a, value b => tribool.ofBool (decide (a ≥ b))
  | _, _ => tribool.indeterminate_value

/-- Modelled from the spec: `operator==` of `checked_result.hpp` (§3, §6:
equality is three-valued and indeterminate when either side is an exception;
§4.8 leaves equality of two exception tags to this type). -/
def eq : checked_result → checked_result → tribool
  | value a, value b => tribool.ofBool (decide (a = b))
  | _, _ => tribool.indeterminate_value

end checked_result

/-- A numeric representation `R`: the closed range
`[std::numeric_limits<R>::min(), std::numeric_limits<R>::max()]`. -/
structure Rep where
  min : Int
  max : Int
  deriving DecidableEq, Repr

/-- The value `x` is representable in `R`. -/
def Rep.representable (R : Rep) (x : Int) : Prop := R.min ≤ x ∧ x ≤ R.max

instance (R : Rep) (x : Int) : Decidable (R.representable x) :=
  inferInstanceAs (Decidable (R.min ≤ x ∧ x ≤ R.max))

/-- The representation `int8_t`. -/
def int8 : Rep := ⟨-128, 127⟩

/-- The representation `int16_t`. -/
def int16 : Rep := ⟨-32768, 32767⟩

namespace checked

/-- Modelled from the spec: the common tail of the checked binary operations of
`checked.hpp` (§7: overflow / underflow are produced "when the
mathematically-correct bound exceeds the target representation's range"). -/
def fit (R : Rep) (x : Int) (what : String) : checked_result :=
  if x > R.max then checked_result.exception exception_type.overflow_error what
  else if x < R.min then checked_result.exception exception_type.underflow_error what
  else checked_result.value x

/-- Modelled from the spec: `checked::cast<R>` of `checked.hpp` (§6: "capturing
representable-range violations as an exception"; §8: a value outside the range
of `R` yields "an exceptional bound of kind overflow"). -/
def cast (R : Rep) (t : Int) : checked_result :=
  if R.min ≤ t ∧ t ≤ R.max then checked_result.value t
  else checked_result.exception exception_type.overflow_error "converted value out of range"

/-- Modelled from the spec: `checked::add<R>` of `checked.hpp` (§6, §7). -/
def add (R : Rep) (t u : Int) : checked_result :=
  fit R (t + u) "addition result out of range"

/-- Modelled from the spec: `checked::subtract<R>` of `checked.hpp` (§6, §7). -/
def subtract (R : Rep) (t u : Int) : checked_result :=
  fit R (t - u) "subtraction result out of range"

/-- Modelled from the spec: `checked::multiply<R>` of `checked.hpp` (§6, §7). -/
def multiply (R : Rep) (t u : Int) : checked_result :=
  fit R (t * u) "multiplication result out of range"

/-- Modelled from the spec: `checked::divide<R>` of `checked.hpp` (§6, §7): the
truncating quotient of the language's `/`, a domain error for a zero divisor. -/
def divide (R : Rep) (t u : Int) : checked_result :=
  if u = 0 then checked_result.exception exception_type.domain_error "divide by zero"
  else fit R (Int.tdiv t u) "division result out of range"

end checked

/-- Modelled from the spec: the unqualified `max(u.u, u.l)` that `operator%`
calls and `interval.hpp` does not declare (§4.6: the upper bound is
`max(U.upper, U.lower)`, "the larger divisor-bound"): the larger of its two
arguments, chosen with the bounds' own `<`. -/
def checked_result.max (a b : checked_result) : checked_result :=
  if (a.lt b).toBool then b else a

/-- Modelled from the spec: the conversion of a `checked_result<T>` into a
`checked_result<R>` member, from `checked_result.hpp` (§3: cross-type
construction "re-casts both bounds through the checked-cast primitive").  A
concrete value is cast; an exception stays the exception it is. -/
def checked_result.convert (R : Rep) : checked_result → checked_result
  | checked_result.value r => checked.cast R r
  | checked_result.exception e msg => checked_result.exception e msg

namespace safe_compare

/-- Modelled from the spec: `safe_compare::less_than` (§4.7: "a pure comparison
primitive that never raises"), the mathematical order on the two values. -/
def less_than (t u : Int) : Bool := decide (t < u)

/-- Modelled from the spec: `safe_compare::greater_than` (§4.7). -/
def greater_than (t u : Int) : Bool := decide (t > u)

end safe_compare

/-! ## `interval.hpp` -/

/-- The variadic `vmin(val1, val2, vs...)` at one argument type, with the
argument pack as a head and a list.  `lt a b` is the condition `(a < b)` of the
`?:`, that is the type's `operator<` converted to `bool`. -/
def vmin {α : Type} (lt : α → α → Bool) : α → List α → α
  | val, [] => val
  | val1, val2 :: vs => if lt val1 val2 then vmin lt val1 vs else vmin lt val2 vs

/-- The variadic `vmax(val1, val2, vs...)`; `gt a b` is the condition `(a > b)`. -/
def vmax {α : Type} (gt : α → α → Bool) : α → List α → α
  | val, [] => val
  | val1, val2 :: vs => if gt val1 val2 then vmax gt val1 vs else vmax gt val2 vs

/-- The condition `(val1 < val2)` of `vmin` on checked bounds. -/
def checked_lt (a b : checked_result) : Bool := (a.lt b).toBool

/-- The condition `(val1 > val2)` of `vmax` on checked bounds. -/
def checked_gt (a b : checked_result) : Bool := (a.gt b).toBool

/-- The type `struct interval<R>`: the two checked bounds `l` and `u`. -/
structure interval where
  l : checked_result
  u : checked_result
  deriving DecidableEq, Repr

namespace interval

/-- The constructor `interval(const T & lower, const T & upper)`: both
arguments go through `checked::cast<R>`. -/
def of_values (R : Rep) (lower upper : Int) : interval :=
  ⟨checked.cast R lower, checked.cast R upper⟩

/-- The constructor `interval(const interval<T> & rhs)`: `l(rhs.l), u(rhs.u)`,
each bound converted to the bound type of `R`. -/
def of_interval (R : Rep) (rhs : interval) : interval :=
  ⟨rhs.l.convert R, rhs.u.convert R⟩

/-- The member `interval::no_exception()`. -/
def no_exception (i : interval) : Bool :=
  i.l.no_exception && i.u.no_exception

/-- The member `interval::includes(t)`: `l <= t.l && u >= t.u`, a three-valued
conjunction returned through the `bool` return type. -/
def includes (self t : interval) : Bool :=
  ((self.l.le t.l).and (self.u.ge t.u)).toBool

end interval

/-- The free function `operator+`.  The `static_cast`s of the four bounds are
defined for concrete bounds only. -/
def operator_plus (R : Rep) (t u : interval) : Option interval := do
  let tl ← t.l.get
  let ul ← u.l.get
  let tu ← t.u.get
  let uu ← u.u.get
  pure ⟨checked.add R tl ul, checked.add R tu uu⟩

/-- The free function `operator-`. -/
def operator_minus (R : Rep) (t u : interval) : Option interval := do
  let tl ← t.l.get
  let uu ← u.u.get
  let tu ← t.u.get
  let ul ← u.l.get
  pure ⟨checked.subtract R tl uu, checked.subtract R tu ul⟩

/-- The free function `operator*`: both bounds are reduced with `vmin`. -/
def operator_multiply (R : Rep) (t u : interval) : Option interval := do
  let tl ← t.l.get
  let ul ← u.l.get
  let uu ← u.u.get
  let tu ← t.u.get
  pure ⟨vmin checked_lt (checked.multiply R tl ul)
          [checked.multiply R tl uu, checked.multiply R tu ul, checked.multiply R tu uu],
        vmin checked_lt (checked.multiply R tl ul)
          [checked.multiply R tl uu, checked.multiply R tu ul, checked.multiply R tu uu]⟩

/-- The free function `operator/`: the zero test `u.l <= 0 && u.u >= 0` is
evaluated first, and the bounds are only read in the second branch. -/
def operator_divide (R : Rep) (t u : interval) : Option interval :=
  if ((u.l.le (checked_result.value 0)).and (u.u.ge (checked_result.value 0))).toBool then
    some ⟨checked_result.value 0,
          checked_result.exception exception_type.domain_error "interval divisor includes zero"⟩
  else do
    let tl ← t.l.get
    let ul ← u.l.get
    let uu ← u.u.get
    let tu ← t.u.get
    pure ⟨vmin checked_lt (checked.divide R tl ul)
            [checked.divide R tl uu, checked.divide R tu ul, checked.divide R tu uu],
          vmax checked_gt (checked.divide R tl ul)
            [checked.divide R tl uu, checked.divide R tu ul, checked.divide R tu uu]⟩

/-- The free function `operator%`: the test `u.l <= 0` decides the result, the
dividend `t` is never read, and the bounds are stored as they are. -/
def operator_modulo (_R : Rep) (_t u : interval) : interval :=
  if (u.l.le (checked_result.value 0)).toBool then
    ⟨checked_result.value 0,
      checked_result.exception exception_type.domain_error "interval divisor includes zero"⟩
  else
    ⟨checked_result.value 0, checked_result.max u.u u.l⟩

/-- The free function `operator<` on intervals. -/
def operator_less (t u : interval) : tribool :=
  if (!t.no_exception || !u.no_exception) then tribool.indeterminate_value
  else
    match t.l, t.u, u.l, u.u with
    | checked_result.value tl, checked_result.value tu,
      checked_result.value ul, checked_result.value uu =>
        if safe_compare.less_than tu ul then tribool.true_value
        else if safe_compare.greater_than tl uu then tribool.false_value
        else tribool.indeterminate_value
    | _, _, _, _ => tribool.indeterminate_value

/-- The free function `operator>` on intervals. -/
def operator_greater (t u : interval) : tribool :=
  if (!t.no_exception || !u.no_exception) then tribool.indeterminate_value
  else
    match t.l, t.u, u.l, u.u with
    | checked_result.value tl, checked_result.value tu,
      checked_result.value ul, checked_result.value uu =>
        if safe_compare.greater_than tl uu then tribool.true_value
        else if safe_compare.less_than tu ul then tribool.false_value
        else tribool.indeterminate_value
    | _, _, _, _ => tribool.indeterminate_value

/-- The free function `operator==` on intervals: `t.l == u.l && t.u == u.u`
returned through the `bool` return type. -/
def operator_equal (t u : interval) : Bool :=
  ((t.l.eq u.l).and (t.u.eq u.u)).toBool

/-- The free function `operator<=` on intervals: `! (t > u)`. -/
def operator_less_equal (t u : interval) : tribool :=
  (operator_greater t u).not

/-- The free function `operator>=` on intervals: `! (t < u)`. -/
def operator_greater_equal (t u : interval) : tribool :=
  (operator_less t u).not

/-! ## Supporting lemmas -/

/-- On concrete bounds `vmin` is the left-to-right minimum. -/
theorem vmin_values (a : Int) (vs : List Int) :
    vmin checked_lt (checked_result.value a) (vs.map checked_result.value) =
      checked_result.value (vs.foldl min a) := by
  induction vs generalizing a with
  | nil => rfl
  | cons b vs ih =>
    simp only [List.map_cons, vmin, List.foldl_cons, checked_lt, checked_result.lt]
    by_cases h : a < b
    · simp only [h, decide_True, tribool.ofBool, tribool.toBool, if_true]
      rw [ih a, min_eq_left (le_of_lt h)]
    · simp only [h, decide_False, tribool.ofBool, tribool.toBool]
      rw [ih b, min_eq_right (not_lt.mp h)]
      rfl

/-- On concrete bounds `vmax` is the left-to-right maximum. -/
theorem vmax_values (a : Int) (vs : List Int) :
    vmax checked_gt (checked_result.value a) (vs.map checked_result.value) =
      checked_result.value (vs.foldl max a) := by
  induction vs generalizing a with
  | nil => rfl
  | cons b vs ih =>
    simp only [List.map_cons, vmax, List.foldl_cons, checked_gt, checked_result.gt]
    by_cases h : a > b
    · simp only [h, decide_True, tribool.ofBool, tribool.toBool, if_true]
      rw [ih a, max_eq_left (le_of_lt h)]
    · simp only [h, decide_False, tribool.ofBool, tribool.toBool]
      rw [ih b, max_eq_right (not_lt.mp h)]
      rfl

/-- A representable value passes through the range check unchanged. -/
theorem checked.fit_of_representable (R : Rep) (x : Int) (what : String)
    (h : R.representable x) : checked.fit R x what = checked_result.value x := by
  unfold Rep.representable at h
  unfold checked.fit
  rw [if_neg (by omega), if_neg (by omega)]

/-- A value outside the range is turned into an exception. -/
theorem checked.fit_of_not_representable (R : Rep) (x : Int) (what : String)
    (h : ¬ R.representable x) : (checked.fit R x what).no_exception = false := by
  unfold Rep.representable at h
  unfold checked.fit
  split_ifs <;> first | rfl | omega

/-- A representable value is cast to itself. -/
theorem checked.cast_of_representable (R : Rep) (x : Int)
    (h : R.representable x) : checked.cast R x = checked_result.value x := by
  unfold Rep.representable at h
  unfold checked.cast
  rw [if_pos h]

/-- Truncating division by a positive divisor is monotone on non-negative numerators. -/
theorem tdiv_mono_num_nonneg (x z y : Int) (hx : 0 ≤ x) (hy : 0 < y) (h : x ≤ z) :
    Int.tdiv x y ≤ Int.tdiv z y := by
  rw [Int.tdiv_eq_ediv hx (le_of_lt hy), Int.tdiv_eq_ediv (le_trans hx h) (le_of_lt hy)]
  exact Int.ediv_le_ediv hy h

/-- Truncating division by a positive divisor is monotone in the numerator. -/
theorem tdiv_mono_num (x z y : Int) (hy : 0 < y) (h : x ≤ z) :
    Int.tdiv x y ≤ Int.tdiv z y := by
  rcases le_or_lt 0 x with hx | hx
  · exact tdiv_mono_num_nonneg x z y hx hy h
  · rcases le_or_lt 0 z with hz | hz
    · have h1 := Int.tdiv_nonneg (show 0 ≤ -x by omega) (le_of_lt hy)
      rw [Int.neg_tdiv] at h1
      have h2 := Int.tdiv_nonneg hz (le_of_lt hy)
      omega
    · have h1 := tdiv_mono_num_nonneg (-z) (-x) y (by omega) hy (by omega)
      rw [Int.neg_tdiv, Int.neg_tdiv] at h1
      omega

/-- For a non-negative numerator the truncating quotient shrinks as a positive
divisor grows. -/
theorem tdiv_anti_den_nonneg (x y w : Int) (hx : 0 ≤ x) (hy : 0 < y) (h : y ≤ w) :
    Int.tdiv x w ≤ Int.tdiv x y := by
  rw [Int.tdiv_eq_ediv hx (le_of_lt hy), Int.tdiv_eq_ediv hx (by omega)]
  have hq : 0 ≤ x / w := Int.ediv_nonneg hx (by omega)
  have h1 : x / w * w ≤ x := Int.ediv_mul_le x (by omega)
  have h2 : x / w * y ≤ x / w * w := Int.mul_le_mul_of_nonneg_left h hq
  exact Int.le_ediv_of_mul_le hy (le_trans h2 h1)

/-- Direction of the truncating quotient in a positive divisor, by the sign of
the numerator. -/
theorem tdiv_den (x y w : Int) (hy : 0 < y) (h : y ≤ w) :
    (0 ≤ x → Int.tdiv x w ≤ Int.tdiv x y) ∧ (x ≤ 0 → Int.tdiv x y ≤ Int.tdiv x w) := by
  constructor
  · intro hx
    exact tdiv_anti_den_nonneg x y w hx hy h
  · intro hx
    have h1 := tdiv_anti_den_nonneg (-x) y w (by omega) hy h
    rw [Int.neg_tdiv, Int.neg_tdiv] at h1
    omega

/-- For a fixed non-zero divisor, the quotient of a numerator in `[tl, tu]`
lies between the quotients of the two ends. -/
theorem tdiv_num_between (tl tu x y : Int) (hy : y ≠ 0) (h1 : tl ≤ x) (h2 : x ≤ tu) :
    min (Int.tdiv tl y) (Int.tdiv tu y) ≤ Int.tdiv x y ∧
      Int.tdiv x y ≤ max (Int.tdiv tl y) (Int.tdiv tu y) := by
  rcases lt_or_gt_of_ne hy with hneg | hpos
  · have a := tdiv_mono_num tl x (-y) (by omega) h1
    have b := tdiv_mono_num x tu (-y) (by omega) h2
    rw [Int.tdiv_neg, Int.tdiv_neg] at a b
    omega
  · have a := tdiv_mono_num tl x y hpos h1
    have b := tdiv_mono_num x tu y hpos h2
    omega

/-- For a fixed numerator, the quotient by a divisor in `[ul, uu]`, a range
that does not contain zero, lies between the quotients by the two ends. -/
theorem tdiv_den_between (ul uu x y : Int) (hz : 0 < ul ∨ uu < 0) (h1 : ul ≤ y)
    (h2 : y ≤ uu) :
    min (Int.tdiv x ul) (Int.tdiv x uu) ≤ Int.tdiv x y ∧
      Int.tdiv x y ≤ max (Int.tdiv x ul) (Int.tdiv x uu) := by
  rcases hz with hpos | hneg
  · have a := tdiv_den x ul y hpos h1
    have b := tdiv_den x y uu (by omega) h2
    rcases le_total 0 x with hx | hx
    · have := a.1 hx; have := b.1 hx; omega
    · have := a.2 hx; have := b.2 hx; omega
  · have a := tdiv_den x (-uu) (-y) (by omega) (by omega)
    have b := tdiv_den x (-y) (-ul) (by omega) (by omega)
    simp only [Int.tdiv_neg] at a b
    rcases le_total 0 x with hx | hx
    · have := a.1 hx; have := b.1 hx; omega
    · have := a.2 hx; have := b.2 hx; omega

/-- With concrete bounds, a divisor range that does not contain zero and four
representable corner quotients, `operator/` returns the least and the greatest
corner quotient. -/
theorem operator_divide_concrete (R : Rep) (tl tu ul uu : Int) (hz : 0 < ul ∨ uu < 0)
    (hu : ul ≤ uu)
    (h1 : R.representable (Int.tdiv tl ul)) (h2 : R.representable (Int.tdiv tl uu))
    (h3 : R.representable (Int.tdiv tu ul)) (h4 : R.representable (Int.tdiv tu uu)) :
    operator_divide R ⟨checked_result.value tl, checked_result.value tu⟩
        ⟨checked_result.value ul, checked_result.value uu⟩ =
      some ⟨checked_result.value
              (min (min (min (Int.tdiv tl ul) (Int.tdiv tl uu)) (Int.tdiv tu ul)) (Int.tdiv tu uu)),
            checked_result.value
              (max (max (max (Int.tdiv tl ul) (Int.tdiv tl uu)) (Int.tdiv tu ul))
                (Int.tdiv tu uu))⟩ := by
  have hul : ul ≠ 0 := by omega
  have huu : uu ≠ 0 := by omega
  have hc : ((checked_result.le (checked_result.value ul) (checked_result.value 0)).and
      (checked_result.ge (checked_result.value uu) (checked_result.value 0))).toBool = false := by
    simp only [checked_result.le, checked_result.ge]
    rcases hz with h | h
    · rw [decide_eq_false (by omega : ¬ ul ≤ 0)]
      cases decide (uu ≥ 0) <;> rfl
    · rw [decide_eq_false (by omega : ¬ uu ≥ 0)]
      cases decide (ul ≤ 0) <;> rfl
  have e1 := vmin_values (Int.tdiv tl ul) [Int.tdiv tl uu, Int.tdiv tu ul, Int.tdiv tu uu]
  have e2 := vmax_values (Int.tdiv tl ul) [Int.tdiv tl uu, Int.tdiv tu ul, Int.tdiv tu uu]
  simp only [List.map_cons, List.map_nil, List.foldl_cons, List.foldl_nil] at e1 e2
  simp only [operator_divide, hc, checked_result.get, checked.divide, if_neg hul, if_neg huu,
    checked.fit_of_representable R _ _ h1, checked.fit_of_representable R _ _ h2,
    checked.fit_of_representable R _ _ h3, checked.fit_of_representable R _ _ h4,
    Option.bind_eq_bind, Option.some_bind, Option.pure_def, e1, e2]
  rfl

/-- With concrete bounds and four representable cross products, `operator*`
returns the least cross product as its lower bound and, through the same `vmin`,
as its upper bound. -/
theorem operator_multiply_concrete (R : Rep) (tl tu ul uu : Int)
    (h1 : R.representable (tl * ul)) (h2 : R.representable (tl * uu))
    (h3 : R.representable (tu * ul)) (h4 : R.representable (tu * uu)) :
    operator_multiply R ⟨checked_result.value tl, checked_result.value tu⟩
        ⟨checked_result.value ul, checked_result.value uu⟩ =
      some ⟨checked_result.value (min (min (min (tl * ul) (tl * uu)) (tu * ul)) (tu * uu)),
            checked_result.value
              (min (min (min (tl * ul) (tl * uu)) (tu * ul)) (tu * uu))⟩ := by
  have e1 := vmin_values (tl * ul) [tl * uu, tu * ul, tu * uu]
  simp only [List.map_cons, List.map_nil, List.foldl_cons, List.foldl_nil] at e1
  simp only [operator_multiply, checked_result.get, checked.multiply,
    checked.fit_of_representable R _ _ h1, checked.fit_of_representable R _ _ h2,
    checked.fit_of_representable R _ _ h3, checked.fit_of_representable R _ _ h4,
    Option.bind_eq_bind, Option.some_bind, Option.pure_def, e1]

/-- On concrete bounds `operator<` is decided by `tu < ul`, then by `tl > uu`. -/
theorem operator_less_concrete (tl tu ul uu : Int) :
    operator_less ⟨checked_result.value tl, checked_result.value tu⟩
        ⟨checked_result.value ul, checked_result.value uu⟩ =
      if tu < ul then tribool.true_value
      else if tl > uu then tribool.false_value
      else tribool.indeterminate_value := by
  simp [operator_less, interval.no_exception, checked_result.no_exception,
    safe_compare.less_than, safe_compare.greater_than]

/-- On concrete bounds `operator>` is decided by `tl > uu`, then by `tu < ul`. -/
theorem operator_greater_concrete (tl tu ul uu : Int) :
    operator_greater ⟨checked_result.value tl, checked_result.value tu⟩
        ⟨checked_result.value ul, checked_result.value uu⟩ =
      if tl > uu then tribool.true_value
      else if tu < ul then tribool.false_value
      else tribool.indeterminate_value := by
  simp [operator_greater, interval.no_exception, checked_result.no_exception,
    safe_compare.less_than, safe_compare.greater_than]

/-- An interval with an exceptional bound fails `no_exception()`. -/
theorem interval.no_exception_false_of_bound (i : interval)
    (h : i.l.no_exception = false ∨ i.u.no_exception = false) :
    i.no_exception = false := by
  unfold interval.no_exception
  rcases h with h | h
  · rw [h]; rfl
  · rw [h]; exact Bool.and_false _

/-- Both ordered comparisons are indeterminate as soon as one of the two
intervals fails `no_exception()`. -/
theorem operator_less_greater_of_exception (t u : interval)
    (h : t.no_exception = false ∨ u.no_exception = false) :
    operator_less t u = tribool.indeterminate_value ∧
      operator_greater t u = tribool.indeterminate_value := by
  have hc : (!t.no_exception || !u.no_exception) = true := by
    rcases h with h | h <;> rw [h] <;> simp
  unfold operator_less operator_greater
  rw [if_pos hc, if_pos hc]
  exact ⟨rfl, rfl⟩

/-- A conjunction whose left operand is indeterminate does not convert to `true`. -/
theorem tribool.toBool_and_indeterminate_left (b : tribool) :
    (tribool.and tribool.indeterminate_value b).toBool = false := by
  cases b <;> rfl

/-- A conjunction whose right operand is indeterminate does not convert to `true`. -/
theorem tribool.toBool_and_indeterminate_right (a : tribool) :
    (tribool.and a tribool.indeterminate_value).toBool = false := by
  cases a <;> rfl

/-- The comparison `<=` is indeterminate when either side is an exception. -/
theorem checked_result.le_of_exception (a b : checked_result)
    (h : a.no_exception = false ∨ b.no_exception = false) :
    a.le b = tribool.indeterminate_value := by
  cases a <;> cases b <;> simp [checked_result.no_exception] at h <;> rfl

/-- The comparison `>=` is indeterminate when either side is an exception. -/
theorem checked_result.ge_of_exception (a b : checked_result)
    (h : a.no_exception = false ∨ b.no_exception = false) :
    a.ge b = tribool.indeterminate_value := by
  cases a <;> cases b <;> simp [checked_result.no_exception] at h <;> rfl

/-- A concrete result of the range check is the checked value itself. -/
theorem checked.fit_eq_value (R : Rep) (x y : Int) (what : String)
    (h : checked.fit R x what = checked_result.value y) : y = x := by
  unfold checked.fit at h
  split_ifs at h
  exact (checked_result.value.inj h).symm

/-- A value outside the range is cast to an overflow exception. -/
theorem checked.cast_of_not_representable (R : Rep) (x : Int) (h : ¬ R.representable x) :
    checked.cast R x =
      checked_result.exception exception_type.overflow_error
        "converted value out of range" := by
  unfold Rep.representable at h
  unfold checked.cast
  rw [if_neg h]

/-- On concrete bounds `max` is the larger value. -/
theorem checked_result.max_values (a b : Int) :
    checked_result.max (checked_result.value a) (checked_result.value b) =
      checked_result.value (Max.max a b) := by
  simp only [checked_result.max, checked_result.lt]
  by_cases h : a < b
  · have e : (tribool.ofBool (decide (a < b))).toBool = true := by
      rw [decide_eq_true h]; rfl
    rw [if_pos e, max_eq_right (le_of_lt h)]
  · have e : ¬ (tribool.ofBool (decide (a < b))).toBool = true := by
      rw [decide_eq_false h]; decide
    rw [if_neg e, max_eq_left (not_lt.mp h)]

/-- With concrete bounds `operator-` pairs `tl` with `uu` and `tu` with `ul`. -/
theorem operator_minus_concrete (R : Rep) (tl tu ul uu : Int) :
    operator_minus R ⟨checked_result.value tl, checked_result.value tu⟩
        ⟨checked_result.value ul, checked_result.value uu⟩ =
      some ⟨checked.subtract R tl uu, checked.subtract R tu ul⟩ := rfl

/-- With concrete bounds `operator+` pairs lower with lower and upper with
upper. -/
theorem operator_plus_concrete (R : Rep) (tl tu ul uu : Int) :
    operator_plus R ⟨checked_result.value tl, checked_result.value tu⟩
        ⟨checked_result.value ul, checked_result.value uu⟩ =
      some ⟨checked.add R tl ul, checked.add R tu uu⟩ := rfl

/-- With a concrete divisor, `operator%` is decided by the sign of `ul`. -/
theorem operator_modulo_concrete (R : Rep) (t : interval) (ul uu : Int) :
    operator_modulo R t ⟨checked_result.value ul, checked_result.value uu⟩ =
      if ul ≤ 0 then
        ⟨checked_result.value 0,
          checked_result.exception exception_type.domain_error
            "interval divisor includes zero"⟩
      else ⟨checked_result.value 0, checked_result.value (Max.max uu ul)⟩ := by
  simp only [operator_modulo, checked_result.le]
  by_cases h : ul ≤ 0
  · have e : (tribool.ofBool (decide (ul ≤ 0))).toBool = true := by
      rw [decide_eq_true h]; rfl
    rw [if_pos e, if_pos h]
  · have e : ¬ (tribool.ofBool (decide (ul ≤ 0))).toBool = true := by
      rw [decide_eq_false h]; decide
    rw [if_neg e, if_neg h, checked_result.max_values]

/-- For a non-negative dividend and a divisor in `[ul, uu]` with `0 < ul`, the
truncating remainder lies in `[0, max uu ul]`. -/
theorem tmod_bounds_of_nonneg (x y ul uu : Int) (hx : 0 ≤ x) (hl : 0 < ul)
    (h1 : ul ≤ y) (h2 : y ≤ uu) :
    0 ≤ Int.tmod x y ∧ Int.tmod x y ≤ Max.max uu ul := by
  have a := Int.tmod_nonneg y hx
  have b := Int.tmod_lt_of_pos x (show 0 < y by omega)
  omega

/-- The left-to-right minimum is one of the values and is below all of them. -/
theorem foldl_min_spec (ws : List Int) (w : Int) :
    ws.foldl min w ∈ w :: ws ∧ ∀ x ∈ w :: ws, ws.foldl min w ≤ x := by
  induction ws generalizing w with
  | nil => simp
  | cons b ws ih =>
    obtain ⟨hm, hle⟩ := ih (min w b)
    rw [List.foldl_cons]
    constructor
    · rcases List.mem_cons.mp hm with h | h
      · rw [h]
        rcases min_choice w b with e | e
        · rw [e]; exact List.mem_cons_self _ _
        · rw [e]; exact List.mem_cons_of_mem _ (List.mem_cons_self _ _)
      · exact List.mem_cons_of_mem _ (List.mem_cons_of_mem _ h)
    · intro x hx
      have h0 := hle (min w b) (List.mem_cons_self _ _)
      rcases List.mem_cons.mp hx with h | h
      · rw [h]; exact le_trans h0 (min_le_left _ _)
      · rcases List.mem_cons.mp h with h | h
        · rw [h]; exact le_trans h0 (min_le_right _ _)
        · exact hle x (List.mem_cons_of_mem _ h)

/-- The left-to-right maximum is one of the values and is above all of them. -/
theorem foldl_max_spec (ws : List Int) (w : Int) :
    ws.foldl max w ∈ w :: ws ∧ ∀ x ∈ w :: ws, x ≤ ws.foldl max w := by
  induction ws generalizing w with
  | nil => simp
  | cons b ws ih =>
    obtain ⟨hm, hle⟩ := ih (max w b)
    rw [List.foldl_cons]
    constructor
    · rcases List.mem_cons.mp hm with h | h
      · rw [h]
        rcases max_choice w b with e | e
        · rw [e]; exact List.mem_cons_self _ _
        · rw [e]; exact List.mem_cons_of_mem _ (List.mem_cons_self _ _)
      · exact List.mem_cons_of_mem _ (List.mem_cons_of_mem _ h)
    · intro x hx
      have h0 := hle (max w b) (List.mem_cons_self _ _)
      rcases List.mem_cons.mp hx with h | h
      · rw [h]; exact le_trans (le_max_left _ _) h0
      · rcases List.mem_cons.mp h with h | h
        · rw [h]; exact le_trans (le_max_right _ _) h0
        · exact hle x (List.mem_cons_of_mem _ h)

/-- The condition `(val1 < val2)` is true for two concrete bounds only. -/
theorem checked_lt_true (a b : checked_result) (h : checked_lt a b = true) :
    a.no_exception = true ∧ b.no_exception = true := by
  cases a <;> cases b <;>
    simp [checked_lt, checked_result.lt, tribool.toBool, checked_result.no_exception] at h ⊢

/-- The condition `(val1 > val2)` is true for two concrete bounds only. -/
theorem checked_gt_true (a b : checked_result) (h : checked_gt a b = true) :
    a.no_exception = true ∧ b.no_exception = true := by
  cases a <;> cases b <;>
    simp [checked_gt, checked_result.gt, tribool.toBool, checked_result.no_exception] at h ⊢

/-- One step of `vmin` keeps the exception status of the second operand. -/
theorem vmin_step_no_exception (a b : checked_result) :
    (if checked_lt a b then a else b).no_exception = b.no_exception := by
  by_cases h : checked_lt a b = true
  · rw [if_pos h, (checked_lt_true a b h).1, (checked_lt_true a b h).2]
  · rw [if_neg h]

/-- One step of `vmax` keeps the exception status of the second operand. -/
theorem vmax_step_no_exception (a b : checked_result) :
    (if checked_gt a b then a else b).no_exception = b.no_exception := by
  by_cases h : checked_gt a b = true
  · rw [if_pos h, (checked_gt_true a b h).1, (checked_gt_true a b h).2]
  · rw [if_neg h]

/-- The result of `vmin` has the exception status of the last argument. -/
theorem vmin_no_exception_concat (init : List checked_result) (a last : checked_result) :
    (vmin checked_lt a (init ++ [last])).no_exception = last.no_exception := by
  induction init generalizing a with
  | nil => exact vmin_step_no_exception a last
  | cons q init ih =>
    simp only [List.cons_append, vmin]
    by_cases h : checked_lt a q = true
    · rw [if_pos h]; exact ih a
    · rw [if_neg h]; exact ih q

/-- The result of `vmax` has the exception status of the last argument. -/
theorem vmax_no_exception_concat (init : List checked_result) (a last : checked_result) :
    (vmax checked_gt a (init ++ [last])).no_exception = last.no_exception := by
  induction init generalizing a with
  | nil => exact vmax_step_no_exception a last
  | cons q init ih =>
    simp only [List.cons_append, vmax]
    by_cases h : checked_gt a q = true
    · rw [if_pos h]; exact ih a
    · rw [if_neg h]; exact ih q

/-- In `vmin` an exceptional argument discards every argument before it. -/
theorem vmin_skip_to_exception (pre : List checked_result) (a : checked_result)
    (e : exception_type) (m : String) (rest : List checked_result) :
    vmin checked_lt a (pre ++ checked_result.exception e m :: rest) =
      vmin checked_lt (checked_result.exception e m) rest := by
  induction pre generalizing a with
  | nil =>
    have h : checked_lt a (checked_result.exception e m) = false := by
      cases a <;> rfl
    simp only [List.nil_append, vmin, h]
    rfl
  | cons q pre ih =>
    simp only [List.cons_append, vmin]
    by_cases h : checked_lt a q = true
    · rw [if_pos h]; exact ih a
    · rw [if_neg h]; exact ih q

/-- In `vmax` an exceptional argument discards every argument before it. -/
theorem vmax_skip_to_exception (pre : List checked_result) (a : checked_result)
    (e : exception_type) (m : String) (rest : List checked_result) :
    vmax checked_gt a (pre ++ checked_result.exception e m :: rest) =
      vmax checked_gt (checked_result.exception e m) rest := by
  induction pre generalizing a with
  | nil =>
    have h : checked_gt a (checked_result.exception e m) = false := by
      cases a <;> rfl
    simp only [List.nil_append, vmax, h]
    rfl
  | cons q pre ih =>
    simp only [List.cons_append, vmax]
    by_cases h : checked_gt a q = true
    · rw [if_pos h]; exact ih a
    · rw [if_neg h]; exact ih q

/-- In `vmin` an exceptional first argument is replaced by the second one. -/
theorem vmin_exception_head (e : exception_type) (m : String) (b : checked_result)
    (vs : List checked_result) :
    vmin checked_lt (checked_result.exception e m) (b :: vs) = vmin checked_lt b vs := by
  have h : checked_lt (checked_result.exception e m) b = false := by
    cases b <;> rfl
  simp only [vmin, h]
  rfl

/-- In `vmax` an exceptional first argument is replaced by the second one. -/
theorem vmax_exception_head (e : exception_type) (m : String) (b : checked_result)
    (vs : List checked_result) :
    vmax checked_gt (checked_result.exception e m) (b :: vs) = vmax checked_gt b vs := by
  have h : checked_gt (checked_result.exception e m) b = false := by
    cases b <;> rfl
  simp only [vmax, h]
  rfl

/-- The conversion to `bool` undoes the lifting of a plain boolean. -/
theorem tribool.toBool_ofBool (b : Bool) : (tribool.ofBool b).toBool = b := by
  cases b <;> rfl

/-- The condition `(val1 < val2)` on two concrete bounds. -/
theorem checked_lt_values (x z : Int) :
    checked_lt (checked_result.value x) (checked_result.value z) = decide (x < z) :=
  tribool.toBool_ofBool _

/-- The condition `(val1 > val2)` on two concrete bounds. -/
theorem checked_gt_values (x z : Int) :
    checked_gt (checked_result.value x) (checked_result.value z) = decide (x > z) :=
  tribool.toBool_ofBool _

/-- The condition `(val1 < val2)` is not true when `val1` is an exception. -/
theorem checked_lt_of_exception_left (a c : checked_result) (h : a.no_exception = false) :
    checked_lt a c = false := by
  cases a with
  | value x => simp [checked_result.no_exception] at h
  | exception e m => cases c <;> rfl

/-- The condition `(val1 > val2)` is not true when `val1` is an exception. -/
theorem checked_gt_of_exception_left (a c : checked_result) (h : a.no_exception = false) :
    checked_gt a c = false := by
  cases a with
  | value x => simp [checked_result.no_exception] at h
  | exception e m => cases c <;> rfl

/-- One step of `vmin`: the first two arguments are replaced by the chosen one. -/
theorem vmin_cons_step (a c : checked_result) (vs : List checked_result) :
    vmin checked_lt a (c :: vs) = vmin checked_lt (if checked_lt a c then a else c) vs := by
  by_cases h : checked_lt a c = true
  · simp only [vmin, if_pos h]
  · simp only [vmin, if_neg h]

/-- One step of `vmax`: the first two arguments are replaced by the chosen one. -/
theorem vmax_cons_step (a c : checked_result) (vs : List checked_result) :
    vmax checked_gt a (c :: vs) = vmax checked_gt (if checked_gt a c then a else c) vs := by
  by_cases h : checked_gt a c = true
  · simp only [vmax, if_pos h]
  · simp only [vmax, if_neg h]

/-- Run over the same arguments, `vmin` and `vmax` stay paired: both are
exceptions, or both are concrete with the `vmin` value below the `vmax` value. -/
theorem vmin_vmax_paired (vs : List checked_result) (a b : checked_result)
    (h : (a.no_exception = false ∧ b.no_exception = false) ∨
      ∃ x y : Int, a = checked_result.value x ∧ b = checked_result.value y ∧ x ≤ y) :
    ((vmin checked_lt a vs).no_exception = false ∧
        (vmax checked_gt b vs).no_exception = false) ∨
      ∃ x y : Int, vmin checked_lt a vs = checked_result.value x ∧
        vmax checked_gt b vs = checked_result.value y ∧ x ≤ y := by
  induction vs generalizing a b with
  | nil => exact h
  | cons c vs ih =>
    rw [vmin_cons_step, vmax_cons_step]
    apply ih
    cases c with
    | exception e m =>
      have h1 : checked_lt a (checked_result.exception e m) = false := by cases a <;> rfl
      have h2 : checked_gt b (checked_result.exception e m) = false := by cases b <;> rfl
      rw [h1, h2]
      exact Or.inl ⟨rfl, rfl⟩
    | value z =>
      rcases h with ⟨ha, hb⟩ | ⟨x, y, ha, hb, hxy⟩
      · rw [checked_lt_of_exception_left a _ ha, checked_gt_of_exception_left b _ hb]
        exact Or.inr ⟨z, z, rfl, rfl, le_refl z⟩
      · subst ha hb
        rw [checked_lt_values, checked_gt_values]
        right
        by_cases h1 : x < z <;> by_cases h2 : y > z
        · exact ⟨x, y, by simp [h1], by simp [h2], hxy⟩
        · exact ⟨x, z, by simp [h1], by simp [h2], by omega⟩
        · exact ⟨z, y, by simp [h1], by simp [h2], by omega⟩
        · exact ⟨z, z, by simp [h1], by simp [h2], le_refl z⟩

/-- When `vmin` and `vmax` of the same arguments are both concrete, the `vmin`
value is at most the `vmax` value. -/
theorem vmin_le_vmax (a : checked_result) (vs : List checked_result) (lo hi : Int)
    (h1 : vmin checked_lt a vs = checked_result.value lo)
    (h2 : vmax checked_gt a vs = checked_result.value hi) : lo ≤ hi := by
  have h0 : (a.no_exception = false ∧ a.no_exception = false) ∨
      ∃ x y : Int, a = checked_result.value x ∧ a = checked_result.value y ∧ x ≤ y := by
    cases a with
    | value x => exact Or.inr ⟨x, x, rfl, rfl, le_refl x⟩
    | exception e m => exact Or.inl ⟨rfl, rfl⟩
  rcases vmin_vmax_paired vs a a h0 with ⟨h, _⟩ | ⟨x, y, hx, hy, hxy⟩
  · rw [h1] at h
    simp [checked_result.no_exception] at h
  · rw [h1] at hx
    rw [h2] at hy
    rw [checked_result.value.inj hx, checked_result.value.inj hy]
    exact hxy

/-- Every product over the box is at least the least of the four corner
products. -/
theorem mul_lower_corner (tl tu ul uu x y : Int) (h1 : tl ≤ x) (h2 : x ≤ tu)
    (h3 : ul ≤ y) (h4 : y ≤ uu) :
    min (min (min (tl * ul) (tl * uu)) (tu * ul)) (tu * uu) ≤ x * y := by
  have A : tl * y ≤ x * y ∨ tu * y ≤ x * y := by
    rcases le_total 0 y with h | h
    · exact Or.inl (Int.mul_le_mul_of_nonneg_right h1 h)
    · exact Or.inr (Int.mul_le_mul_of_nonpos_right h2 h)
  have B : tl * ul ≤ tl * y ∨ tl * uu ≤ tl * y := by
    rcases le_total 0 tl with h | h
    · exact Or.inl (Int.mul_le_mul_of_nonneg_left h3 h)
    · exact Or.inr (Int.mul_le_mul_of_nonpos_left h h4)
  have C : tu * ul ≤ tu * y ∨ tu * uu ≤ tu * y := by
    rcases le_total 0 tu with h | h
    · exact Or.inl (Int.mul_le_mul_of_nonneg_left h3 h)
    · exact Or.inr (Int.mul_le_mul_of_nonpos_left h h4)
  omega

/-- With concrete bounds `operator*` returns the same `vmin` for both bounds. -/
theorem operator_multiply_bounds (R : Rep) (tl tu ul uu : Int) :
    operator_multiply R ⟨checked_result.value tl, checked_result.value tu⟩
        ⟨checked_result.value ul, checked_result.value uu⟩ =
      some ⟨vmin checked_lt (checked.multiply R tl ul)
              [checked.multiply R tl uu, checked.multiply R tu ul, checked.multiply R tu uu],
            vmin checked_lt (checked.multiply R tl ul)
              [checked.multiply R tl uu, checked.multiply R tu ul,
                checked.multiply R tu uu]⟩ := rfl

/-- With concrete operand bounds, two concrete bounds of a quotient are the
`vmin` and the `vmax` of the four corner quotients. -/
theorem operator_divide_bounds (R : Rep) (tl tu ul uu lo hi : Int)
    (h : operator_divide R ⟨checked_result.value tl, checked_result.value tu⟩
        ⟨checked_result.value ul, checked_result.value uu⟩ =
      some ⟨checked_result.value lo, checked_result.value hi⟩) :
    vmin checked_lt (checked.divide R tl ul)
        [checked.divide R tl uu, checked.divide R tu ul, checked.divide R tu uu] =
      checked_result.value lo ∧
    vmax checked_gt (checked.divide R tl ul)
        [checked.divide R tl uu, checked.divide R tu ul, checked.divide R tu uu] =
      checked_result.value hi := by
  unfold operator_divide at h
  split_ifs at h
  · have h1 := (interval.mk.inj (Option.some.inj h)).2
    exact absurd h1 (by simp)
  · have h1 := interval.mk.inj (Option.some.inj h)
    exact h1

/-! ## Claims -/

/-- C1: at `Interval(-5,-1) * Interval(-5,-1)` the four cross products are
25, 5, 5 and 1, all representable; `operator*` returns lower = 1, the minimum, and
upper = 1, again the minimum, not the maximum 25. -/
theorem operator_multiply_neg5_neg1_upper_is_minimum :
    operator_multiply int8 (interval.of_values int8 (-5) (-1))
        (interval.of_values int8 (-5) (-1)) =
      some ⟨checked_result.value 1, checked_result.value 1⟩ ∧
    max (max ((-5 : Int) * (-5)) ((-5) * (-1))) (max ((-1) * (-5)) ((-1) * (-1))) = 25 := by
  decide

/-- C2: for every numerator interval `t` (its bounds concrete or not) and every
divisor with concrete bounds `ul ≤ 0 ≤ uu`, `t / u` is the interval whose lower
bound is the concrete value 0 and whose upper bound is a `domain_error`
exception. -/
theorem operator_divide_zero_straddling (R : Rep) (t : interval) (ul uu : Int)
    (hl : ul ≤ 0) (hu : 0 ≤ uu) :
    operator_divide R t ⟨checked_result.value ul, checked_result.value uu⟩ =
      some ⟨checked_result.value 0,
            checked_result.exception exception_type.domain_error
              "interval divisor includes zero"⟩ := by
  have hc : ((checked_result.le (checked_result.value ul) (checked_result.value 0)).and
      (checked_result.ge (checked_result.value uu) (checked_result.value 0))).toBool = true := by
    simp only [checked_result.le, checked_result.ge]
    rw [decide_eq_true hl, decide_eq_true (show uu ≥ 0 from hu)]
    rfl
  unfold operator_divide
  rw [if_pos hc]

/-- Witness for C2: the divisor `Interval(-1,1)` under a numerator whose lower
bound is an exception. -/
theorem operator_divide_zero_straddling_witness :
    (-1 : Int) ≤ 0 ∧ (0 : Int) ≤ 1 ∧
    operator_divide int8
        ⟨checked_result.exception exception_type.overflow_error "out of range",
          checked_result.value 3⟩
        ⟨checked_result.value (-1), checked_result.value 1⟩ =
      some ⟨checked_result.value 0,
            checked_result.exception exception_type.domain_error
              "interval divisor includes zero"⟩ :=
  ⟨by decide, by decide,
    operator_divide_zero_straddling int8 _ (-1) 1 (by decide) (by decide)⟩

/-- C3: with concrete bounds `tl ≤ tu`, `ul ≤ uu`, a divisor range without zero
and four representable corner quotients, `t / u` has concrete bounds that
enclose every truncating quotient `x / y` of the box, and each of the two bounds
is the quotient of some `x`, `y` of the box. -/
theorem operator_divide_encloses_and_tight (R : Rep) (tl tu ul uu : Int)
    (ht : tl ≤ tu) (hu : ul ≤ uu) (hz : 0 < ul ∨ uu < 0)
    (h1 : R.representable (Int.tdiv tl ul)) (h2 : R.representable (Int.tdiv tl uu))
    (h3 : R.representable (Int.tdiv tu ul)) (h4 : R.representable (Int.tdiv tu uu)) :
    ∃ lo hi : Int,
      operator_divide R ⟨checked_result.value tl, checked_result.value tu⟩
          ⟨checked_result.value ul, checked_result.value uu⟩ =
        some ⟨checked_result.value lo, checked_result.value hi⟩ ∧
      (∀ x y : Int, tl ≤ x → x ≤ tu → ul ≤ y → y ≤ uu →
        lo ≤ Int.tdiv x y ∧ Int.tdiv x y ≤ hi) ∧
      (∃ x y : Int, tl ≤ x ∧ x ≤ tu ∧ ul ≤ y ∧ y ≤ uu ∧ Int.tdiv x y = lo) ∧
      (∃ x y : Int, tl ≤ x ∧ x ≤ tu ∧ ul ≤ y ∧ y ≤ uu ∧ Int.tdiv x y = hi) := by
  refine ⟨_, _, operator_divide_concrete R tl tu ul uu hz hu h1 h2 h3 h4, ?_, ?_, ?_⟩
  · intro x y hx1 hx2 hy1 hy2
    have hy : y ≠ 0 := by omega
    have a := tdiv_num_between tl tu x y hy hx1 hx2
    have b := tdiv_den_between ul uu tl y hz hy1 hy2
    have c := tdiv_den_between ul uu tu y hz hy1 hy2
    omega
  · have hmin : ∀ a b c d : Int,
        min (min (min a b) c) d = a ∨ min (min (min a b) c) d = b ∨
          min (min (min a b) c) d = c ∨ min (min (min a b) c) d = d := by
      intro a b c d; omega
    rcases hmin (Int.tdiv tl ul) (Int.tdiv tl uu) (Int.tdiv tu ul) (Int.tdiv tu uu)
      with h | h | h | h
    · exact ⟨tl, ul, le_refl _, ht, le_refl _, hu, h.symm⟩
    · exact ⟨tl, uu, le_refl _, ht, hu, le_refl _, h.symm⟩
    · exact ⟨tu, ul, ht, le_refl _, le_refl _, hu, h.symm⟩
    · exact ⟨tu, uu, ht, le_refl _, hu, le_refl _, h.symm⟩
  · have hmax : ∀ a b c d : Int,
        max (max (max a b) c) d = a ∨ max (max (max a b) c) d = b ∨
          max (max (max a b) c) d = c ∨ max (max (max a b) c) d = d := by
      intro a b c d; omega
    rcases hmax (Int.tdiv tl ul) (Int.tdiv tl uu) (Int.tdiv tu ul) (Int.tdiv tu uu)
      with h | h | h | h
    · exact ⟨tl, ul, le_refl _, ht, le_refl _, hu, h.symm⟩
    · exact ⟨tl, uu, le_refl _, ht, hu, le_refl _, h.symm⟩
    · exact ⟨tu, ul, ht, le_refl _, le_refl _, hu, h.symm⟩
    · exact ⟨tu, uu, ht, le_refl _, hu, le_refl _, h.symm⟩

/-- Witness for C3: `Interval(-7,5) / Interval(2,3)` over `int8`. -/
theorem operator_divide_encloses_and_tight_witness :
    (-7 : Int) ≤ 5 ∧ (2 : Int) ≤ 3 ∧
    ∃ lo hi : Int,
      operator_divide int8 ⟨checked_result.value (-7), checked_result.value 5⟩
          ⟨checked_result.value 2, checked_result.value 3⟩ =
        some ⟨checked_result.value lo, checked_result.value hi⟩ ∧
      (∀ x y : Int, (-7) ≤ x → x ≤ 5 → 2 ≤ y → y ≤ 3 →
        lo ≤ Int.tdiv x y ∧ Int.tdiv x y ≤ hi) ∧
      (∃ x y : Int, (-7) ≤ x ∧ x ≤ 5 ∧ 2 ≤ y ∧ y ≤ 3 ∧ Int.tdiv x y = lo) ∧
      (∃ x y : Int, (-7) ≤ x ∧ x ≤ 5 ∧ 2 ≤ y ∧ y ≤ 3 ∧ Int.tdiv x y = hi) :=
  ⟨by decide, by decide,
    operator_divide_encloses_and_tight int8 (-7) 5 2 3 (by decide) (by decide)
      (Or.inl (by decide)) (by decide) (by decide) (by decide) (by decide)⟩

/-- C4: over `int8`, `Interval(-100,1) * Interval(1,2)` has the exact least cross
product -200, outside the range, yet `operator*` reports the concrete lower
bound 1; `Interval(-100,-1) * Interval(-2,-1)` has the exact greatest cross
product 200, outside the range, yet `operator*` reports the concrete upper
bound 1. -/
theorem operator_multiply_out_of_range_unflagged :
    (¬ int8.representable
        (min (min ((-100 : Int) * 1) ((-100) * 2)) (min (1 * 1) (1 * 2))) ∧
      operator_multiply int8 (interval.of_values int8 (-100) 1)
          (interval.of_values int8 1 2) =
        some ⟨checked_result.value 1, checked_result.value 1⟩) ∧
    (¬ int8.representable
        (max (max ((-100 : Int) * (-2)) ((-100) * (-1))) (max ((-1) * (-2)) ((-1) * (-1)))) ∧
      operator_multiply int8 (interval.of_values int8 (-100) (-1))
          (interval.of_values int8 (-2) (-1)) =
        some ⟨checked_result.value 1, checked_result.value 1⟩) := by
  decide

/-- C5: for concrete bounds with `tl ≤ tu` and `ul ≤ uu`, if the intervals do
not overlap then one of `t < u`, `t > u` is true and the other false, and if they
share a point then both are indeterminate. -/
theorem comparison_totality (tl tu ul uu : Int) (ht : tl ≤ tu) (hu : ul ≤ uu) :
    ((tu < ul ∨ uu < tl) →
      (operator_less ⟨checked_result.value tl, checked_result.value tu⟩
            ⟨checked_result.value ul, checked_result.value uu⟩ = tribool.true_value ∧
          operator_greater ⟨checked_result.value tl, checked_result.value tu⟩
            ⟨checked_result.value ul, checked_result.value uu⟩ = tribool.false_value) ∨
      (operator_less ⟨checked_result.value tl, checked_result.value tu⟩
            ⟨checked_result.value ul, checked_result.value uu⟩ = tribool.false_value ∧
          operator_greater ⟨checked_result.value tl, checked_result.value tu⟩
            ⟨checked_result.value ul, checked_result.value uu⟩ = tribool.true_value)) ∧
    ((∃ x : Int, tl ≤ x ∧ x ≤ tu ∧ ul ≤ x ∧ x ≤ uu) →
      operator_less ⟨checked_result.value tl, checked_result.value tu⟩
          ⟨checked_result.value ul, checked_result.value uu⟩ = tribool.indeterminate_value ∧
        operator_greater ⟨checked_result.value tl, checked_result.value tu⟩
          ⟨checked_result.value ul, checked_result.value uu⟩ =
            tribool.indeterminate_value) := by
  rw [operator_less_concrete, operator_greater_concrete]
  constructor
  · rintro (h | h)
    · have hn : ¬ tl > uu := by omega
      simp [h, hn]
    · have hn : ¬ tu < ul := by omega
      have hp : tl > uu := h
      simp [hp, hn]
  · rintro ⟨x, h1, h2, h3, h4⟩
    have hn : ¬ tu < ul := by omega
    have hm : ¬ tl > uu := by omega
    simp [hn, hm]

/-- Witness for C5: the disjoint intervals `[1,2]` and `[3,5]`. -/
theorem comparison_totality_witness :
    (1 : Int) ≤ 2 ∧ (3 : Int) ≤ 5 ∧
    (operator_less ⟨checked_result.value 1, checked_result.value 2⟩
        ⟨checked_result.value 3, checked_result.value 5⟩ = tribool.true_value ∧
      operator_greater ⟨checked_result.value 1, checked_result.value 2⟩
        ⟨checked_result.value 3, checked_result.value 5⟩ = tribool.false_value) :=
  ⟨by decide, by decide,
    ((comparison_totality 1 2 3 5 (by decide) (by decide)).1 (Or.inl (by decide))).resolve_right
      (by decide)⟩

/-- C6: for concrete bounds with `tl ≤ tu` and `ul ≤ uu`, `t < u` is true exactly
when every `x` of `t` is below every `y` of `u`, false exactly when every `x` of
`t` is above every `y` of `u`, and indeterminate exactly in the remaining case. -/
theorem operator_less_meaning (tl tu ul uu : Int) (ht : tl ≤ tu) (hu : ul ≤ uu) :
    (operator_less ⟨checked_result.value tl, checked_result.value tu⟩
          ⟨checked_result.value ul, checked_result.value uu⟩ = tribool.true_value ↔
        ∀ x y : Int, tl ≤ x → x ≤ tu → ul ≤ y → y ≤ uu → x < y) ∧
    (operator_less ⟨checked_result.value tl, checked_result.value tu⟩
          ⟨checked_result.value ul, checked_result.value uu⟩ = tribool.false_value ↔
        ∀ x y : Int, tl ≤ x → x ≤ tu → ul ≤ y → y ≤ uu → x > y) ∧
    (operator_less ⟨checked_result.value tl, checked_result.value tu⟩
          ⟨checked_result.value ul, checked_result.value uu⟩ = tribool.indeterminate_value ↔
        (¬ (∀ x y : Int, tl ≤ x → x ≤ tu → ul ≤ y → y ≤ uu → x < y) ∧
          ¬ (∀ x y : Int, tl ≤ x → x ≤ tu → ul ≤ y → y ≤ uu → x > y))) := by
  have hA : (∀ x y : Int, tl ≤ x → x ≤ tu → ul ≤ y → y ≤ uu → x < y) ↔ tu < ul :=
    ⟨fun h => h tu ul ht (le_refl _) (le_refl _) hu,
      fun h x y _ h2 h3 _ => by omega⟩
  have hB : (∀ x y : Int, tl ≤ x → x ≤ tu → ul ≤ y → y ≤ uu → x > y) ↔ tl > uu :=
    ⟨fun h => h tl uu (le_refl _) ht hu (le_refl _),
      fun h x y h1 _ _ h4 => by omega⟩
  rw [hA, hB, operator_less_concrete]
  by_cases h1 : tu < ul
  · have h2 : ¬ tl > uu := by omega
    simp [h1, h2]
  · by_cases h2 : tl > uu
    · simp [h1, h2]
    · simp [h1, h2]

/-- Witness for C6: `[1,2] < [3,5]` is true and every element of the first is
below every element of the second. -/
theorem operator_less_meaning_witness :
    (1 : Int) ≤ 2 ∧ (3 : Int) ≤ 5 ∧
    (operator_less ⟨checked_result.value 1, checked_result.value 2⟩
          ⟨checked_result.value 3, checked_result.value 5⟩ = tribool.true_value ↔
        ∀ x y : Int, 1 ≤ x → x ≤ 2 → 3 ≤ y → y ≤ 5 → x < y) :=
  ⟨by decide, by decide, (operator_less_meaning 1 2 3 5 (by decide) (by decide)).1⟩

/-- C7: when at least one of the four bounds `t.l`, `t.u`, `u.l`, `u.u` is an
exception, each of `t < u`, `t > u`, `t <= u` and `t >= u` is indeterminate. -/
theorem ordered_comparisons_indeterminate_of_exception (t u : interval)
    (h : t.l.no_exception = false ∨ t.u.no_exception = false ∨
      u.l.no_exception = false ∨ u.u.no_exception = false) :
    operator_less t u = tribool.indeterminate_value ∧
    operator_greater t u = tribool.indeterminate_value ∧
    operator_less_equal t u = tribool.indeterminate_value ∧
    operator_greater_equal t u = tribool.indeterminate_value := by
  have hx : t.no_exception = false ∨ u.no_exception = false := by
    rcases h with h | h | h | h
    · exact Or.inl (interval.no_exception_false_of_bound t (Or.inl h))
    · exact Or.inl (interval.no_exception_false_of_bound t (Or.inr h))
    · exact Or.inr (interval.no_exception_false_of_bound u (Or.inl h))
    · exact Or.inr (interval.no_exception_false_of_bound u (Or.inr h))
  obtain ⟨h1, h2⟩ := operator_less_greater_of_exception t u hx
  refine ⟨h1, h2, ?_, ?_⟩
  · unfold operator_less_equal
    rw [h2]
    rfl
  · unfold operator_greater_equal
    rw [h1]
    rfl

/-- Witness for C7: the upper bound of `u` is a `domain_error` exception, the
other three bounds are concrete. -/
theorem ordered_comparisons_indeterminate_of_exception_witness :
    (checked_result.exception exception_type.domain_error
        "interval divisor includes zero").no_exception = false ∧
    operator_less ⟨checked_result.value 1, checked_result.value 2⟩
        ⟨checked_result.value 0, checked_result.exception exception_type.domain_error
          "interval divisor includes zero"⟩ = tribool.indeterminate_value ∧
    operator_greater ⟨checked_result.value 1, checked_result.value 2⟩
        ⟨checked_result.value 0, checked_result.exception exception_type.domain_error
          "interval divisor includes zero"⟩ = tribool.indeterminate_value ∧
    operator_less_equal ⟨checked_result.value 1, checked_result.value 2⟩
        ⟨checked_result.value 0, checked_result.exception exception_type.domain_error
          "interval divisor includes zero"⟩ = tribool.indeterminate_value ∧
    operator_greater_equal ⟨checked_result.value 1, checked_result.value 2⟩
        ⟨checked_result.value 0, checked_result.exception exception_type.domain_error
          "interval divisor includes zero"⟩ = tribool.indeterminate_value :=
  ⟨rfl, ordered_comparisons_indeterminate_of_exception _ _ (Or.inr (Or.inr (Or.inr rfl)))⟩

/-- C8, as stated, fails: with an exceptional upper bound on `self`,
`self.includes(other)` is the plain `bool` value `false`, the same value it
returns for two concrete intervals where containment fails; it is not a third,
indeterminate value.  Here even the three-valued conjunction inside is false. -/
theorem includes_exceptional_not_indeterminate :
    interval.includes
        ⟨checked_result.value 5, checked_result.exception exception_type.overflow_error
          "out of range"⟩
        ⟨checked_result.value 0, checked_result.value 1⟩ = false ∧
    interval.includes ⟨checked_result.value 5, checked_result.value 9⟩
        ⟨checked_result.value 0, checked_result.value 1⟩ = false ∧
    tribool.ofBool (interval.includes
        ⟨checked_result.value 5, checked_result.exception exception_type.overflow_error
          "out of range"⟩
        ⟨checked_result.value 0, checked_result.value 1⟩) ≠ tribool.indeterminate_value ∧
    (checked_result.le (checked_result.value 5) (checked_result.value 0)).and
        (checked_result.ge
          (checked_result.exception exception_type.overflow_error "out of range")
          (checked_result.value 1)) = tribool.false_value := by
  decide

/-- C8, amended: when some bound of either interval is an exception,
`self.includes(other)` returns `false`. -/
theorem includes_false_of_exception (self other : interval)
    (h : self.l.no_exception = false ∨ self.u.no_exception = false ∨
      other.l.no_exception = false ∨ other.u.no_exception = false) :
    self.includes other = false := by
  unfold interval.includes
  rcases h with h | h | h | h
  · rw [checked_result.le_of_exception _ _ (Or.inl h)]
    exact tribool.toBool_and_indeterminate_left _
  · rw [checked_result.ge_of_exception _ _ (Or.inl h)]
    exact tribool.toBool_and_indeterminate_right _
  · rw [checked_result.le_of_exception _ _ (Or.inr h)]
    exact tribool.toBool_and_indeterminate_left _
  · rw [checked_result.ge_of_exception _ _ (Or.inr h)]
    exact tribool.toBool_and_indeterminate_right _

/-- Witness for C8, amended: the lower bound of `other` is an exception. -/
theorem includes_false_of_exception_witness :
    (checked_result.exception exception_type.underflow_error
        "out of range").no_exception = false ∧
    interval.includes ⟨checked_result.value 0, checked_result.value 9⟩
        ⟨checked_result.exception exception_type.underflow_error "out of range",
          checked_result.value 1⟩ = false :=
  ⟨rfl, includes_false_of_exception _ _ (Or.inr (Or.inr (Or.inl rfl)))⟩

/-- C9: an interval whose two bounds are concrete includes itself. -/
theorem includes_reflexive (i : interval) (h : i.no_exception = true) :
    i.includes i = true := by
  obtain ⟨l, u⟩ := i
  cases l with
  | exception e m => simp [interval.no_exception, checked_result.no_exception] at h
  | value a =>
    cases u with
    | exception e m => simp [interval.no_exception, checked_result.no_exception] at h
    | value b =>
      simp [interval.includes, checked_result.le, checked_result.ge, tribool.ofBool,
        tribool.and, tribool.toBool]

/-- Witness for C9: the interval `[-3, 4]`. -/
theorem includes_reflexive_witness :
    interval.no_exception ⟨checked_result.value (-3), checked_result.value 4⟩ = true ∧
    interval.includes ⟨checked_result.value (-3), checked_result.value 4⟩
        ⟨checked_result.value (-3), checked_result.value 4⟩ = true :=
  ⟨rfl, includes_reflexive _ rfl⟩

/-- C10: for values `a`, `b`, `c`, `d` of `R` with `a + c` and `b + d`
representable in `R`, both sums `Interval(a,b) + Interval(c,d)` and
`Interval(c,d) + Interval(a,b)` are produced and `operator==` on them is true. -/
theorem operator_plus_commutative (R : Rep) (a b c d : Int)
    (ha : R.representable a) (hb : R.representable b)
    (hc : R.representable c) (hd : R.representable d)
    (hac : R.representable (a + c)) (hbd : R.representable (b + d)) :
    ∃ x y : interval,
      operator_plus R (interval.of_values R a b) (interval.of_values R c d) = some x ∧
      operator_plus R (interval.of_values R c d) (interval.of_values R a b) = some y ∧
      operator_equal x y = true := by
  have hca : R.representable (c + a) := by rw [Int.add_comm]; exact hac
  have hdb : R.representable (d + b) := by rw [Int.add_comm]; exact hbd
  refine ⟨⟨checked_result.value (a + c), checked_result.value (b + d)⟩,
    ⟨checked_result.value (c + a), checked_result.value (d + b)⟩, ?_, ?_, ?_⟩
  · simp only [operator_plus, interval.of_values, checked.cast_of_representable R _ ha,
      checked.cast_of_representable R _ hb, checked.cast_of_representable R _ hc,
      checked.cast_of_representable R _ hd, checked_result.get, checked.add,
      checked.fit_of_representable R _ _ hac, checked.fit_of_representable R _ _ hbd,
      Option.bind_eq_bind, Option.some_bind, Option.pure_def]
  · simp only [operator_plus, interval.of_values, checked.cast_of_representable R _ ha,
      checked.cast_of_representable R _ hb, checked.cast_of_representable R _ hc,
      checked.cast_of_representable R _ hd, checked_result.get, checked.add,
      checked.fit_of_representable R _ _ hca, checked.fit_of_representable R _ _ hdb,
      Option.bind_eq_bind, Option.some_bind, Option.pure_def]
  · simp [operator_equal, checked_result.eq, Int.add_comm, tribool.ofBool, tribool.and,
      tribool.toBool]

/-- Witness for C10: `Interval(-3,4) + Interval(10,20)` over `int8`. -/
theorem operator_plus_commutative_witness :
    int8.representable (-3) ∧ int8.representable 4 ∧ int8.representable 10 ∧
    int8.representable 20 ∧ int8.representable (-3 + 10) ∧ int8.representable (4 + 20) ∧
    ∃ x y : interval,
      operator_plus int8 (interval.of_values int8 (-3) 4) (interval.of_values int8 10 20) =
        some x ∧
      operator_plus int8 (interval.of_values int8 10 20) (interval.of_values int8 (-3) 4) =
        some y ∧
      operator_equal x y = true :=
  ⟨by decide, by decide, by decide, by decide, by decide, by decide,
    operator_plus_commutative int8 (-3) 4 10 20 (by decide) (by decide) (by decide)
      (by decide) (by decide) (by decide)⟩

/-- C11: with concrete bounds `tl ≤ tu`, `ul ≤ uu` and `tl - uu`, `tu - ul`
representable, `t - u` has lower = `tl - uu` and upper = `tu - ul`; every
difference `x - y` of the box lies between them and each of the two is the
difference of some `x`, `y` of the box. -/
theorem operator_minus_cross_pairs_and_tight (R : Rep) (tl tu ul uu : Int)
    (ht : tl ≤ tu) (hu : ul ≤ uu)
    (h1 : R.representable (tl - uu)) (h2 : R.representable (tu - ul)) :
    operator_minus R ⟨checked_result.value tl, checked_result.value tu⟩
        ⟨checked_result.value ul, checked_result.value uu⟩ =
      some ⟨checked_result.value (tl - uu), checked_result.value (tu - ul)⟩ ∧
    (∀ x y : Int, tl ≤ x → x ≤ tu → ul ≤ y → y ≤ uu →
      tl - uu ≤ x - y ∧ x - y ≤ tu - ul) ∧
    (∃ x y : Int, tl ≤ x ∧ x ≤ tu ∧ ul ≤ y ∧ y ≤ uu ∧ x - y = tl - uu) ∧
    (∃ x y : Int, tl ≤ x ∧ x ≤ tu ∧ ul ≤ y ∧ y ≤ uu ∧ x - y = tu - ul) := by
  refine ⟨?_, ?_, ?_, ?_⟩
  · rw [operator_minus_concrete]
    unfold checked.subtract
    rw [checked.fit_of_representable R _ _ h1, checked.fit_of_representable R _ _ h2]
  · intro x y hx1 hx2 hy1 hy2
    omega
  · exact ⟨tl, uu, le_refl _, ht, hu, le_refl _, rfl⟩
  · exact ⟨tu, ul, ht, le_refl _, le_refl _, hu, rfl⟩

/-- Witness for C11: `Interval(-7,5) - Interval(2,3)` over `int8` is `[-10, 3]`. -/
theorem operator_minus_cross_pairs_and_tight_witness :
    (-7 : Int) ≤ 5 ∧ (2 : Int) ≤ 3 ∧
    operator_minus int8 ⟨checked_result.value (-7), checked_result.value 5⟩
        ⟨checked_result.value 2, checked_result.value 3⟩ =
      some ⟨checked_result.value (-7 - 3), checked_result.value (5 - 2)⟩ :=
  ⟨by decide, by decide,
    (operator_minus_cross_pairs_and_tight int8 (-7) 5 2 3 (by decide) (by decide)
      (by decide) (by decide)).1⟩

/-- C12: for every dividend `t` and every divisor with concrete bounds, if
`ul ≤ 0` then `t % u` is `[0, exception(domain_error)]`, and if `0 < ul` then
`t % u` has lower bound 0 and upper bound `max(uu, ul)`; `t` plays no part. -/
theorem operator_modulo_by_cases (R : Rep) (t : interval) (ul uu : Int) :
    (ul ≤ 0 →
      operator_modulo R t ⟨checked_result.value ul, checked_result.value uu⟩ =
        ⟨checked_result.value 0,
          checked_result.exception exception_type.domain_error
            "interval divisor includes zero"⟩) ∧
    (0 < ul →
      operator_modulo R t ⟨checked_result.value ul, checked_result.value uu⟩ =
        ⟨checked_result.value 0, checked_result.value (Max.max uu ul)⟩) := by
  rw [operator_modulo_concrete]
  constructor
  · intro h
    rw [if_pos h]
  · intro h
    rw [if_neg (by omega)]

/-- Witness for C12: the divisor `[-5,-3]`, which does not contain zero, and the
divisor `[3,5]`, under a dividend with an exceptional bound. -/
theorem operator_modulo_by_cases_witness :
    operator_modulo int8
        ⟨checked_result.exception exception_type.overflow_error "out of range",
          checked_result.value 9⟩
        ⟨checked_result.value (-5), checked_result.value (-3)⟩ =
      ⟨checked_result.value 0,
        checked_result.exception exception_type.domain_error
          "interval divisor includes zero"⟩ ∧
    operator_modulo int8
        ⟨checked_result.exception exception_type.overflow_error "out of range",
          checked_result.value 9⟩
        ⟨checked_result.value 3, checked_result.value 5⟩ =
      ⟨checked_result.value 0, checked_result.value (Max.max 5 3)⟩ :=
  ⟨(operator_modulo_by_cases int8 _ (-5) (-3)).1 (by decide),
    (operator_modulo_by_cases int8 _ 3 5).2 (by decide)⟩

/-- C13: over `int8`, `Interval(-7,-7) % Interval(2,2)` is `[0, 2]`, while the
remainder of truncating division `-7 % 2` is `-1`: it is negative and lies
outside the result interval. -/
theorem operator_modulo_negative_dividend_outside :
    operator_modulo int8 (interval.of_values int8 (-7) (-7)) (interval.of_values int8 2 2) =
      ⟨checked_result.value 0, checked_result.value 2⟩ ∧
    Int.tmod (-7) 2 = -1 ∧
    ¬ ((0 : Int) ≤ Int.tmod (-7) 2 ∧ Int.tmod (-7) 2 ≤ 2) := by
  decide

/-- C14: the interval constructed from `(a, b)` has the checked casts of `a` and
`b` as its bounds: a representable argument gives a concrete bound equal to it,
an argument outside the range of `R` gives an overflow exception, and for
representable `a ≤ b` the interval is `[a, b]` with no exception. -/
theorem of_values_bounds_are_checked_casts (R : Rep) (a b : Int) :
    (interval.of_values R a b).l = checked.cast R a ∧
    (interval.of_values R a b).u = checked.cast R b ∧
    (R.representable a → (interval.of_values R a b).l = checked_result.value a) ∧
    (R.representable b → (interval.of_values R a b).u = checked_result.value b) ∧
    (¬ R.representable a →
      ∃ msg, (interval.of_values R a b).l =
        checked_result.exception exception_type.overflow_error msg) ∧
    (¬ R.representable b →
      ∃ msg, (interval.of_values R a b).u =
        checked_result.exception exception_type.overflow_error msg) ∧
    (R.representable a → R.representable b → a ≤ b →
      interval.of_values R a b = ⟨checked_result.value a, checked_result.value b⟩ ∧
        (interval.of_values R a b).no_exception = true) := by
  refine ⟨rfl, rfl, ?_, ?_, ?_, ?_, ?_⟩
  · intro h
    exact checked.cast_of_representable R a h
  · intro h
    exact checked.cast_of_representable R b h
  · intro h
    exact ⟨_, checked.cast_of_not_representable R a h⟩
  · intro h
    exact ⟨_, checked.cast_of_not_representable R b h⟩
  · intro ha hb _
    unfold interval.of_values
    rw [checked.cast_of_representable R a ha, checked.cast_of_representable R b hb]
    exact ⟨rfl, rfl⟩

/-- Witness for C14: `Interval<int8>` from `(-300, 5)` has an overflow exception
as its lower bound and the concrete upper bound 5. -/
theorem of_values_bounds_are_checked_casts_witness :
    (∃ msg, (interval.of_values int8 (-300) 5).l =
      checked_result.exception exception_type.overflow_error msg) ∧
    (interval.of_values int8 (-300) 5).u = checked_result.value 5 :=
  ⟨(of_values_bounds_are_checked_casts int8 (-300) 5).2.2.2.2.1 (by decide),
    (of_values_bounds_are_checked_casts int8 (-300) 5).2.2.2.1 (by decide)⟩

/-- C15: for an interval over `R` with concrete bounds and a representation `W`
that holds every value of `R`, converting to `interval<W>` and back to
`interval<R>` gives the concrete bounds of the original. -/
theorem of_interval_round_trip (R W : Rep) (l u : Int)
    (hl : R.representable l) (hu : R.representable u)
    (hW : ∀ x : Int, R.representable x → W.representable x) :
    interval.of_interval R
        (interval.of_interval W ⟨checked_result.value l, checked_result.value u⟩) =
      ⟨checked_result.value l, checked_result.value u⟩ := by
  unfold interval.of_interval
  simp only [checked_result.convert, checked.cast_of_representable W l (hW l hl),
    checked.cast_of_representable W u (hW u hu), checked.cast_of_representable R l hl,
    checked.cast_of_representable R u hu]

/-- Witness for C15: `[-128, 127]` from `int8` to `int16` and back. -/
theorem of_interval_round_trip_witness :
    int8.representable (-128) ∧ int8.representable 127 ∧
    (∀ x : Int, int8.representable x → int16.representable x) ∧
    interval.of_interval int8
        (interval.of_interval int16 ⟨checked_result.value (-128), checked_result.value 127⟩) =
      ⟨checked_result.value (-128), checked_result.value 127⟩ :=
  ⟨by decide, by decide,
    fun x h => ⟨le_trans (by decide) h.1, le_trans h.2 (by decide)⟩,
    of_interval_round_trip int8 int16 (-128) 127 (by decide) (by decide)
      (fun x h => ⟨le_trans (by decide) h.1, le_trans h.2 (by decide)⟩)⟩

/-- C16: on a non-empty list of concrete values `vmin` returns one of the
arguments that is less than or equal to every argument, and `vmax` returns one
of the arguments that is greater than or equal to every argument. -/
theorem reducers_compute_extremum (a : Int) (vs : List Int) :
    (∃ r : Int,
      vmin checked_lt (checked_result.value a) (vs.map checked_result.value) =
        checked_result.value r ∧
      r ∈ a :: vs ∧ ∀ x ∈ a :: vs, r ≤ x) ∧
    (∃ r : Int,
      vmax checked_gt (checked_result.value a) (vs.map checked_result.value) =
        checked_result.value r ∧
      r ∈ a :: vs ∧ ∀ x ∈ a :: vs, x ≤ r) :=
  ⟨⟨_, vmin_values a vs, (foldl_min_spec vs a).1, (foldl_min_spec vs a).2⟩,
    ⟨_, vmax_values a vs, (foldl_max_spec vs a).1, (foldl_max_spec vs a).2⟩⟩

/-- C17: the result of `vmin` (resp. `vmax`) is an exception exactly when the
last argument is one; and when the arguments after an exceptional argument are
all concrete, the result is the minimum (resp. maximum) of those later arguments
alone, whatever stands before them. -/
theorem reducers_on_exceptional_arguments (a : checked_result) (vs : List checked_result) :
    (vmin checked_lt a vs).no_exception =
      ((a :: vs).getLast (List.cons_ne_nil a vs)).no_exception ∧
    (vmax checked_gt a vs).no_exception =
      ((a :: vs).getLast (List.cons_ne_nil a vs)).no_exception ∧
    (∀ (pre : List checked_result) (e : exception_type) (m : String) (w : Int)
        (ws : List Int),
      a :: vs = pre ++ checked_result.exception e m :: (w :: ws).map checked_result.value →
      (∃ r : Int, vmin checked_lt a vs = checked_result.value r ∧
        r ∈ w :: ws ∧ ∀ x ∈ w :: ws, r ≤ x) ∧
      (∃ r : Int, vmax checked_gt a vs = checked_result.value r ∧
        r ∈ w :: ws ∧ ∀ x ∈ w :: ws, x ≤ r)) := by
  refine ⟨?_, ?_, ?_⟩
  · rcases List.eq_nil_or_concat vs with h | ⟨init, last, h⟩
    · subst h; rfl
    · subst h
      rw [List.concat_eq_append, vmin_no_exception_concat]
      simp
  · rcases List.eq_nil_or_concat vs with h | ⟨init, last, h⟩
    · subst h; rfl
    · subst h
      rw [List.concat_eq_append, vmax_no_exception_concat]
      simp
  · intro pre e m w ws h
    have hmin : vmin checked_lt (checked_result.exception e m)
        ((w :: ws).map checked_result.value) = checked_result.value (ws.foldl min w) := by
      rw [List.map_cons, vmin_exception_head, vmin_values]
    have hmax : vmax checked_gt (checked_result.exception e m)
        ((w :: ws).map checked_result.value) = checked_result.value (ws.foldl max w) := by
      rw [List.map_cons, vmax_exception_head, vmax_values]
    cases pre with
    | nil =>
      obtain ⟨h1, h2⟩ := List.cons.inj h
      subst h1 h2
      exact ⟨⟨_, hmin, (foldl_min_spec ws w).1, (foldl_min_spec ws w).2⟩,
        ⟨_, hmax, (foldl_max_spec ws w).1, (foldl_max_spec ws w).2⟩⟩
    | cons q pre =>
      rw [List.cons_append] at h
      obtain ⟨h1, h2⟩ := List.cons.inj h
      subst h1 h2
      rw [vmin_skip_to_exception, vmax_skip_to_exception]
      exact ⟨⟨_, hmin, (foldl_min_spec ws w).1, (foldl_min_spec ws w).2⟩,
        ⟨_, hmax, (foldl_max_spec ws w).1, (foldl_max_spec ws w).2⟩⟩

/-- Witness for C17: in `vmin(1, exception, 7, 5)` the concrete 1 and the
exception are discarded and the result is a minimum of 7 and 5 only. -/
theorem reducers_on_exceptional_arguments_witness :
    ∃ r : Int,
      vmin checked_lt (checked_result.value 1)
          [checked_result.exception exception_type.overflow_error "out of range",
            checked_result.value 7, checked_result.value 5] =
        checked_result.value r ∧
      r ∈ [7, 5] ∧ ∀ x ∈ [7, 5], r ≤ x :=
  ((reducers_on_exceptional_arguments (checked_result.value 1)
      [checked_result.exception exception_type.overflow_error "out of range",
        checked_result.value 7, checked_result.value 5]).2.2
    [checked_result.value 1] exception_type.overflow_error "out of range" 7 [5] rfl).1

/-- C18: when each of `t`, `u` either has an exceptional bound or has concrete
bounds with lower ≤ upper, `t <= u` is the same three-valued result as `t < u`
and `t >= u` the same as `t > u`. -/
theorem nonstrict_same_as_strict (t u : interval)
    (ht : (t.l.no_exception = false ∨ t.u.no_exception = false) ∨
      ∃ tl tu : Int, t = ⟨checked_result.value tl, checked_result.value tu⟩ ∧ tl ≤ tu)
    (hu : (u.l.no_exception = false ∨ u.u.no_exception = false) ∨
      ∃ ul uu : Int, u = ⟨checked_result.value ul, checked_result.value uu⟩ ∧ ul ≤ uu) :
    operator_less_equal t u = operator_less t u ∧
    operator_greater_equal t u = operator_greater t u := by
  have hexc : (t.no_exception = false ∨ u.no_exception = false) →
      operator_less_equal t u = operator_less t u ∧
        operator_greater_equal t u = operator_greater t u := by
    intro h
    obtain ⟨h1, h2⟩ := operator_less_greater_of_exception t u h
    unfold operator_less_equal operator_greater_equal
    rw [h1, h2]
    exact ⟨rfl, rfl⟩
  rcases ht with ht | ⟨tl, tu, rfl, htl⟩
  · exact hexc (Or.inl (interval.no_exception_false_of_bound t ht))
  · rcases hu with hu | ⟨ul, uu, rfl, hul⟩
    · exact hexc (Or.inr (interval.no_exception_false_of_bound u hu))
    · unfold operator_less_equal operator_greater_equal
      rw [operator_less_concrete, operator_greater_concrete]
      by_cases h1 : tu < ul
      · have h2 : ¬ tl > uu := by omega
        simp [h1, h2, tribool.not]
      · by_cases h2 : tl > uu
        · simp [h1, h2, tribool.not]
        · simp [h1, h2, tribool.not]

/-- Witness for C18: the touching intervals `[1,3]` and `[3,5]`, where `t <= u`
is indeterminate. -/
theorem nonstrict_same_as_strict_witness :
    (1 : Int) ≤ 3 ∧ (3 : Int) ≤ 5 ∧
    (operator_less_equal ⟨checked_result.value 1, checked_result.value 3⟩
        ⟨checked_result.value 3, checked_result.value 5⟩ =
      operator_less ⟨checked_result.value 1, checked_result.value 3⟩
        ⟨checked_result.value 3, checked_result.value 5⟩ ∧
     operator_greater_equal ⟨checked_result.value 1, checked_result.value 3⟩
        ⟨checked_result.value 3, checked_result.value 5⟩ =
      operator_greater ⟨checked_result.value 1, checked_result.value 3⟩
        ⟨checked_result.value 3, checked_result.value 5⟩) ∧
    operator_less_equal ⟨checked_result.value 1, checked_result.value 3⟩
        ⟨checked_result.value 3, checked_result.value 5⟩ = tribool.indeterminate_value :=
  ⟨by decide, by decide,
    nonstrict_same_as_strict _ _ (Or.inr ⟨1, 3, rfl, by decide⟩)
      (Or.inr ⟨3, 5, rfl, by decide⟩),
    by decide⟩

/-- C19: for concrete operand bounds with `tl ≤ tu` and `ul ≤ uu`, whenever the
result of `+`, `-`, `*`, `/` or `%` has two concrete bounds `lo` and `hi`, then
`lo ≤ hi`. -/
theorem arithmetic_preserves_bound_ordering (R : Rep) (tl tu ul uu lo hi : Int)
    (ht : tl ≤ tu) (hu : ul ≤ uu) :
    (operator_plus R ⟨checked_result.value tl, checked_result.value tu⟩
          ⟨checked_result.value ul, checked_result.value uu⟩ =
        some ⟨checked_result.value lo, checked_result.value hi⟩ → lo ≤ hi) ∧
    (operator_minus R ⟨checked_result.value tl, checked_result.value tu⟩
          ⟨checked_result.value ul, checked_result.value uu⟩ =
        some ⟨checked_result.value lo, checked_result.value hi⟩ → lo ≤ hi) ∧
    (operator_multiply R ⟨checked_result.value tl, checked_result.value tu⟩
          ⟨checked_result.value ul, checked_result.value uu⟩ =
        some ⟨checked_result.value lo, checked_result.value hi⟩ → lo ≤ hi) ∧
    (operator_divide R ⟨checked_result.value tl, checked_result.value tu⟩
          ⟨checked_result.value ul, checked_result.value uu⟩ =
        some ⟨checked_result.value lo, checked_result.value hi⟩ → lo ≤ hi) ∧
    (operator_modulo R ⟨checked_result.value tl, checked_result.value tu⟩
          ⟨checked_result.value ul, checked_result.value uu⟩ =
        ⟨checked_result.value lo, checked_result.value hi⟩ → lo ≤ hi) := by
  refine ⟨?_, ?_, ?_, ?_, ?_⟩
  · intro h
    rw [operator_plus_concrete] at h
    obtain ⟨h1, h2⟩ := interval.mk.inj (Option.some.inj h)
    have e1 := checked.fit_eq_value R _ _ _ h1
    have e2 := checked.fit_eq_value R _ _ _ h2
    omega
  · intro h
    rw [operator_minus_concrete] at h
    obtain ⟨h1, h2⟩ := interval.mk.inj (Option.some.inj h)
    have e1 := checked.fit_eq_value R _ _ _ h1
    have e2 := checked.fit_eq_value R _ _ _ h2
    omega
  · intro h
    rw [operator_multiply_bounds] at h
    obtain ⟨h1, h2⟩ := interval.mk.inj (Option.some.inj h)
    rw [h1] at h2
    exact le_of_eq (checked_result.value.inj h2)
  · intro h
    obtain ⟨h1, h2⟩ := operator_divide_bounds R tl tu ul uu lo hi h
    exact vmin_le_vmax _ _ lo hi h1 h2
  · intro h
    rw [operator_modulo_concrete] at h
    split_ifs at h with hz
    · have h2 := (interval.mk.inj h).2
      exact absurd h2 (by simp)
    · obtain ⟨h1, h2⟩ := interval.mk.inj h
      have e1 := checked_result.value.inj h1
      have e2 := checked_result.value.inj h2
      omega

/-- Witness for C19: over `int8`, `[-7,5] + [2,3] = [-5,8]`, and
`[-128,-1] / [-2,-1]`, one of whose corner quotients overflows, is `[0,1]`. -/
theorem arithmetic_preserves_bound_ordering_witness :
    (-7 : Int) ≤ 5 ∧ (2 : Int) ≤ 3 ∧
    operator_plus int8 ⟨checked_result.value (-7), checked_result.value 5⟩
        ⟨checked_result.value 2, checked_result.value 3⟩ =
      some ⟨checked_result.value (-5), checked_result.value 8⟩ ∧
    (-5 : Int) ≤ 8 ∧
    (-128 : Int) ≤ -1 ∧ (-2 : Int) ≤ -1 ∧
    operator_divide int8 ⟨checked_result.value (-128), checked_result.value (-1)⟩
        ⟨checked_result.value (-2), checked_result.value (-1)⟩ =
      some ⟨checked_result.value 0, checked_result.value 1⟩ ∧
    (0 : Int) ≤ 1 :=
  ⟨by decide, by decide, by decide,
    (arithmetic_preserves_bound_ordering int8 (-7) 5 2 3 (-5) 8 (by decide) (by decide)).1
      (by decide),
    by decide, by decide, by decide,
    (arithmetic_preserves_bound_ordering int8 (-128) (-1) (-2) (-1) 0 1 (by decide)
      (by decide)).2.2.2.1 (by decide)⟩

/-- C20: with concrete bounds `tl ≤ tu`, `ul ≤ uu` and four representable cross
products, the lower bound of `t * u` is concrete, it is at most every product
`x * y` of the box, and it is the product of some `x`, `y` of the box. -/
theorem operator_multiply_lower_sound (R : Rep) (tl tu ul uu : Int)
    (ht : tl ≤ tu) (hu : ul ≤ uu)
    (h1 : R.representable (tl * ul)) (h2 : R.representable (tl * uu))
    (h3 : R.representable (tu * ul)) (h4 : R.representable (tu * uu)) :
    ∃ (lo : Int) (upper : checked_result),
      operator_multiply R ⟨checked_result.value tl, checked_result.value tu⟩
          ⟨checked_result.value ul, checked_result.value uu⟩ =
        some ⟨checked_result.value lo, upper⟩ ∧
      (∀ x y : Int, tl ≤ x → x ≤ tu → ul ≤ y → y ≤ uu → lo ≤ x * y) ∧
      (∃ x y : Int, tl ≤ x ∧ x ≤ tu ∧ ul ≤ y ∧ y ≤ uu ∧ x * y = lo) := by
  refine ⟨_, _, operator_multiply_concrete R tl tu ul uu h1 h2 h3 h4, ?_, ?_⟩
  · intro x y hx1 hx2 hy1 hy2
    exact mul_lower_corner tl tu ul uu x y hx1 hx2 hy1 hy2
  · have hmin : ∀ a b c d : Int,
        min (min (min a b) c) d = a ∨ min (min (min a b) c) d = b ∨
          min (min (min a b) c) d = c ∨ min (min (min a b) c) d = d := by
      intro a b c d; omega
    rcases hmin (tl * ul) (tl * uu) (tu * ul) (tu * uu) with h | h | h | h
    · exact ⟨tl, ul, le_refl _, ht, le_refl _, hu, h.symm⟩
    · exact ⟨tl, uu, le_refl _, ht, hu, le_refl _, h.symm⟩
    · exact ⟨tu, ul, ht, le_refl _, le_refl _, hu, h.symm⟩
    · exact ⟨tu, uu, ht, le_refl _, hu, le_refl _, h.symm⟩

/-- Witness for C20: `Interval(-5,-1) * Interval(-5,-1)` over `int8`. -/
theorem operator_multiply_lower_sound_witness :
    (-5 : Int) ≤ -1 ∧
    ∃ (lo : Int) (upper : checked_result),
      operator_multiply int8 ⟨checked_result.value (-5), checked_result.value (-1)⟩
          ⟨checked_result.value (-5), checked_result.value (-1)⟩ =
        some ⟨checked_result.value lo, upper⟩ ∧
      (∀ x y : Int, (-5) ≤ x → x ≤ (-1) → (-5) ≤ y → y ≤ (-1) → lo ≤ x * y) ∧
      (∃ x y : Int, (-5) ≤ x ∧ x ≤ (-1) ∧ (-5) ≤ y ∧ y ≤ (-1) ∧ x * y = lo) :=
  ⟨by decide,
    operator_multiply_lower_sound int8 (-5) (-1) (-5) (-1) (by decide) (by decide)
      (by decide) (by decide) (by decide) (by decide)⟩

end boost.numeric
